import Mathlib

/-!
Verification of the etherface harvesting pipeline & signature parser.

Shallow embedding of the Rust sources:
  * `etherface-lib/src/model.rs`    — signature data model and Keccak-256 hashing
  * `etherface-lib/src/parser.rs`   — ABI / Solidity signature extraction
  * `etherface-lib/src/api/github/token.rs` — credential (token) pool manager
  * `etherface-lib/src/api/mod.rs`  — request executor retry loop
  * `etherface/src/fetcher/fourbyte.rs` — registry (4Byte) fetcher
  * `etherface/src/fetcher/github.rs`   — repository crawler refresh / insert logic
  * `etherface-lib/src/config.rs`   — configuration loading

Machine integers are modelled as `Nat` with explicit `% 2^64` where overflow
matters; fallible code returns `Option`/`Except`.
-/

namespace Etherface

/-- Decidable equality of `Except` results, used to evaluate the models on
concrete inputs. -/
instance {ε α : Type _} [DecidableEq ε] [DecidableEq α] : DecidableEq (Except ε α)
  | Except.ok a, Except.ok b =>
    if h : a = b then isTrue (by rw [h])
    else isFalse (by intro hh; cases hh; exact h rfl)
  | Except.ok _, Except.error _ => isFalse (by intro h; cases h)
  | Except.error _, Except.ok _ => isFalse (by intro h; cases h)
  | Except.error a, Except.error b =>
    if h : a = b then isTrue (by rw [h])
    else isFalse (by intro hh; cases hh; exact h rfl)

/-! ## Keccak-256

The `sha3` crate's `Keccak256` (original Keccak padding, **not** NIST SHA3),
as invoked by `SignatureWithMetadata::new` in `model.rs`:
`format!("{:x}", Keccak256::digest(&text))`.
Bytes are `Nat < 256`, lanes are `Nat < 2^64`; the state is a 25-lane list
indexed by `x + 5*y`.
-/

/-- Mask for the low 64 bits, `2^64 - 1`. -/
def mask64 : Nat := 18446744073709551615

/-- Left-rotation of a 64-bit lane by `n` (for `0 ≤ n < 64`). -/
def rotl64 (x n : Nat) : Nat :=
  (((x <<< n) ||| (x >>> (64 - n))) &&& mask64)

/-- State lane read, `A[x, y]` with wrap-around on both coordinates. -/
def lane (A : List Nat) (x y : Nat) : Nat :=
  A.getD (x % 5 + 5 * (y % 5)) 0

/-- Keccak θ step. -/
def theta (A : List Nat) : List Nat :=
  let C := fun x => lane A x 0 ^^^ lane A x 1 ^^^ lane A x 2 ^^^ lane A x 3 ^^^ lane A x 4
  let D := fun x => C ((x + 4) % 5) ^^^ rotl64 (C ((x + 1) % 5)) 1
  (List.range 25).map fun i => lane A (i % 5) (i / 5) ^^^ D (i % 5)

/-- Rotation offsets `r[x, y]` indexed by `x + 5*y`, generated as in the
Keccak reference: starting from cell `(1, 0)`, step `t` assigns offset
`(t+1)(t+2)/2 mod 64` and moves to `(y, 2x+3y mod 5)`; cell `(0, 0)` keeps
offset zero. -/
def rhoOffsets : List Nat :=
  ((List.range 24).foldl
    (fun st t =>
      let x := st.1
      let y := st.2.1
      let acc := st.2.2
      (y, (2 * x + 3 * y) % 5, acc.set (x + 5 * y) ((t + 1) * (t + 2) / 2 % 64)))
    ((1 : Nat), (0 : Nat), List.replicate 25 0)).2.2

/-- Combined ρ and π steps: `B[y, 2x+3y] = rot(A[x, y], r[x, y])`.
For output cell `(X, Y)` the source cell is `x = (X + 3Y) % 5`, `y = X`. -/
def rhoPi (A : List Nat) : List Nat :=
  (List.range 25).map fun j =>
    let X := j % 5
    let Y := j / 5
    let x := (X + 3 * Y) % 5
    let y := X
    rotl64 (A.getD (x + 5 * y) 0) (rhoOffsets.getD (x + 5 * y) 0)

/-- Keccak χ step. -/
def chi (A : List Nat) : List Nat :=
  (List.range 25).map fun i =>
    let x := i % 5
    let y := i / 5
    lane A x y ^^^ ((lane A (x + 1) y ^^^ mask64) &&& lane A (x + 2) y)

/-- Keccak ι step: XOR the round constant into lane `(0, 0)`. -/
def iota (rc : Nat) (A : List Nat) : List Nat :=
  A.set 0 (A.getD 0 0 ^^^ rc)

/-- One step of the degree-8 LFSR (`x^8 + x^6 + x^5 + x^4 + 1`) producing the
round-constant bit sequence `rc(t)`. -/
def lfsrNext (r : Nat) : Nat :=
  if r &&& 128 ≠ 0 then ((r <<< 1) ^^^ 0x71) &&& 255 else (r <<< 1) &&& 255

/-- State of the round-constant LFSR after `t` steps (initial state 1). -/
def lfsrState : Nat → Nat
  | 0 => 1
  | t + 1 => lfsrNext (lfsrState t)

/-- Bit `rc(t)` of the round-constant sequence. -/
def rcBit (t : Nat) : Nat := lfsrState t &&& 1

/-- Round constant of round `i`: bit `rc(7i + j)` lands at position
`2^j - 1` for `j = 0..6`. -/
def roundConstant (i : Nat) : Nat :=
  (List.range 7).foldl (fun acc j => acc ||| (rcBit (7 * i + j) <<< (2 ^ j - 1))) 0

/-- The 24 Keccak-f[1600] round constants. -/
def roundConstants : List Nat :=
  (List.range 24).map roundConstant

/-- The Keccak-f[1600] permutation. -/
def keccakF (A : List Nat) : List Nat :=
  roundConstants.foldl (fun st rc => iota rc (chi (rhoPi (theta st)))) A

/-- Little-endian interpretation of (up to) 8 bytes as one 64-bit lane. -/
def bytesToLane (bs : List Nat) : Nat :=
  bs.foldr (fun b acc => b + 256 * acc) 0

/-- A 136-byte rate block as 17 lanes. -/
def blockToLanes (block : List Nat) : List Nat :=
  (List.range 17).map fun j => bytesToLane ((block.drop (8 * j)).take 8)

/-- XOR a rate block into the first 17 lanes of the state. -/
def xorBlock (st block : List Nat) : List Nat :=
  let lanes := blockToLanes block
  (List.range 25).map fun i => st.getD i 0 ^^^ (if i < 17 then lanes.getD i 0 else 0)

/-- Original Keccak multi-rate padding (`0x01 … 0x80`, or a lone `0x81`). -/
def pad136 (msg : List Nat) : List Nat :=
  let q := 136 - msg.length % 136
  if q = 1 then msg ++ [0x81]
  else msg ++ 0x01 :: List.replicate (q - 2) 0 ++ [0x80]

/-- Split into 136-byte chunks (fuel-based structural recursion). -/
def chunksGo (fuel : Nat) (l : List Nat) : List (List Nat) :=
  match fuel with
  | 0 => []
  | fuel + 1 =>
    match l with
    | [] => []
    | _ => l.take 136 :: chunksGo fuel (l.drop 136)

/-- Keccak-256 digest (32 bytes) of a byte string. -/
def keccak256 (msg : List Nat) : List Nat :=
  let padded := pad136 msg
  let st := (chunksGo padded.length padded).foldl
    (fun st block => keccakF (xorBlock st block)) (List.replicate 25 0)
  (List.range 32).map fun i => (st.getD (i / 8) 0 >>> (8 * (i % 8))) % 256

/-- UTF-8 encoding of one character. -/
def charUtf8 (c : Char) : List Nat :=
  let n := c.toNat
  if n < 0x80 then [n]
  else if n < 0x800 then [0xC0 ||| (n >>> 6), 0x80 ||| (n &&& 0x3F)]
  else if n < 0x10000 then
    [0xE0 ||| (n >>> 12), 0x80 ||| ((n >>> 6) &&& 0x3F), 0x80 ||| (n &&& 0x3F)]
  else
    [0xF0 ||| (n >>> 18), 0x80 ||| ((n >>> 12) &&& 0x3F),
     0x80 ||| ((n >>> 6) &&& 0x3F), 0x80 ||| (n &&& 0x3F)]

/-- UTF-8 encoding of a string. -/
def utf8Encode (s : String) : List Nat :=
  (s.data.map charUtf8).flatten

/-- Lowercase hexadecimal digit, matching Rust's `{:x}` formatting. -/
def hexChar (n : Nat) : Char :=
  if n < 10 then Char.ofNat (48 + n) else Char.ofNat (87 + n)

/-- Two lowercase hex digits of one byte (`{:02x}`). -/
def byteToHex (b : Nat) : List Char :=
  [hexChar (b / 16 % 16), hexChar (b % 16)]

/-- Lowercase hex string of a byte list, as `format!("{:x}", digest)` renders
a `sha3` digest. -/
def bytesToHexString (bs : List Nat) : String :=
  ⟨(bs.map byteToHex).flatten⟩

/-- Lowercase hex rendering of the Keccak-256 digest of the UTF-8 bytes of a
string, i.e. `lowercase_hex(keccak256(utf8(text)))`. -/
def keccak256Hex (s : String) : String :=
  bytesToHexString (keccak256 (utf8Encode s))

/-! ## Token manager (`api/github/token.rs`)

The pool of GitHub API tokens with one active token. Probing the rate-limit
endpoint for a token is modelled as a function from tokens to the optional
rate-limit object (`none` = the probe errored).
-/

/-- Rate-limit object `{resources: {core, search}}` of the quota endpoint. -/
structure Ratelimit where
  core : Nat
  search : Nat
deriving DecidableEq

/-- State of `struct TokenManager`. -/
structure TokenManager where
  active : String
  pool : List String
deriving DecidableEq

/-- Observable effect of one `refresh` call. -/
inductive RefreshEffect where
  | searchReset
  | allDrained
  | switched
deriving DecidableEq

/-- Pool scan of `TokenManager::refresh`: probe every pool token, error with
`GithubTokenPoolEmpty` when none answers, otherwise pick the first token
with maximal remaining core calls; if that maximum is zero sleep (keeping
the active token), else make it active. -/
def refreshScan (probe : String → Option Ratelimit) (tm : TokenManager) :
    Except Unit (TokenManager × RefreshEffect) :=
  let valid := tm.pool.filterMap fun t => (probe t).map fun rl => (t, rl.core)
  match valid with
  | [] => Except.error ()
  | v0 :: vrest =>
    let best := (v0 :: vrest).foldl (fun b t => if t.2 > b.2 then t else b) v0
    if best.2 = 0 then Except.ok (tm, RefreshEffect.allDrained)
    else Except.ok ({ tm with active := best.1 }, RefreshEffect.switched)

/-- Function `TokenManager::refresh` from `token.rs`: when the active token's
probe succeeds and its search quota is exhausted, sleep one minute and keep
the active token; otherwise scan the pool. -/
def TokenManager.refresh (probe : String → Option Ratelimit) (tm : TokenManager) :
    Except Unit (TokenManager × RefreshEffect) :=
  match probe tm.active with
  | some rl =>
    if rl.search = 0 then Except.ok (tm, RefreshEffect.searchReset)
    else refreshScan probe tm
  | none => refreshScan probe tm

/-! ## Request executor (`api/mod.rs`, `RequestHandler::execute`)

The retry loop is driven by a script: the outcome the network and response
handler produce for each successive send. Credential-pool actions are
modelled as succeeding (their failure propagates the pool error and is not
part of the claim).
-/

/-- Outcome of one `request.send()` plus `T::process` classification. -/
inductive SendOutcome where
  | transportErr
  | okBody
  | fatal
  | retryResp
  | cleanupAction
  | refreshAction
  | retryAfter (secs : Nat)
deriving DecidableEq

/-- Performed credential-pool action. -/
inductive ActionKind where
  | cleanup
  | refreshPool
deriving DecidableEq

/-- Terminal state of the executor (carrying the number of sends performed),
or exhaustion of the script with the loop still running (carrying the loop
counters `retries` and `retries_valid`). -/
inductive ExecResult where
  | success (sends : Nat)
  | httpErr (sends : Nat)
  | fatalErr (sends : Nat)
  | exhausted (retries rv : Nat)
deriving DecidableEq

/-- Trace of one executor run: result, the sleeps performed (seconds, in
order) and the credential actions performed (in order). -/
structure ExecTrace where
  result : ExecResult
  sleeps : List Nat
  actions : List ActionKind
deriving DecidableEq

/-- Number of sends recorded in a result, counting an exhausted script as
all of it sent. -/
def ExecResult.sendCount (fullLen : Nat) : ExecResult → Nat
  | .success n => n
  | .httpErr n => n
  | .fatalErr n => n
  | .exhausted _ _ => fullLen

/-- Increment the send count of a terminal result by one. -/
def bumpResult : ExecResult → ExecResult
  | ExecResult.success n => ExecResult.success (n + 1)
  | ExecResult.httpErr n => ExecResult.httpErr (n + 1)
  | ExecResult.fatalErr n => ExecResult.fatalErr (n + 1)
  | ExecResult.exhausted r rv => ExecResult.exhausted r rv

/-- Account for one more send in a trace. -/
def bumpTrace (t : ExecTrace) : ExecTrace :=
  { t with result := bumpResult t.result }

/-- Record a sleep at the head of a trace. -/
def withSleep (s : Nat) (t : ExecTrace) : ExecTrace :=
  { t with sleeps := s :: t.sleeps }

/-- Record a performed action at the head of a trace. -/
def withAction (a : ActionKind) (t : ExecTrace) : ExecTrace :=
  { t with actions := a :: t.actions }

/-- Loop body of `RequestHandler::execute` over the remaining script, with
the `retries` (transport failures so far) and `retries_valid` (backoff
counter, capped at 10) state. A transport failure returns the HTTP error on
the fifth count and otherwise falls through to the `5 * retries_valid`
sleep; a `Retry` classification first bumps the capped counter and then
sleeps; actions and upstream-specified sleeps `continue` without the bottom
sleep. -/
def execGo : List SendOutcome → Nat → Nat → ExecTrace
  | [], retries, rv => ⟨ExecResult.exhausted retries rv, [], []⟩
  | o :: rest, retries, rv =>
    match o with
    | SendOutcome.okBody => ⟨ExecResult.success 1, [], []⟩
    | SendOutcome.fatal => ⟨ExecResult.fatalErr 1, [], []⟩
    | SendOutcome.transportErr =>
      if retries + 1 = 5 then ⟨ExecResult.httpErr 1, [], []⟩
      else withSleep (5 * rv) (bumpTrace (execGo rest (retries + 1) rv))
    | SendOutcome.retryResp =>
      let rv2 := if rv < 10 then rv + 1 else rv
      withSleep (5 * rv2) (bumpTrace (execGo rest retries rv2))
    | SendOutcome.cleanupAction =>
      withAction ActionKind.cleanup (bumpTrace (execGo rest retries rv))
    | SendOutcome.refreshAction =>
      withAction ActionKind.refreshPool (bumpTrace (execGo rest retries rv))
    | SendOutcome.retryAfter s =>
      withSleep s (bumpTrace (execGo rest retries rv))

/-- Run of `RequestHandler::execute` with the initial loop state
(`retries = 0`, `retries_valid = 1`). -/
def execute (script : List SendOutcome) : ExecTrace := execGo script 0 1

/-- Iterated send-count increment. -/
def addSends : Nat → ExecResult → ExecResult
  | 0, x => x
  | n + 1, x => bumpResult (addSends n x)

/-- Action performed for an action-classified outcome. -/
def actKind : SendOutcome → ActionKind
  | SendOutcome.cleanupAction => ActionKind.cleanup
  | _ => ActionKind.refreshPool

/-- Number of transport failures among the sends actually performed. -/
def transportSends (script : List SendOutcome) (t : ExecTrace) : Nat :=
  ((script.take (t.result.sendCount script.length)).filter
    (· = SendOutcome.transportErr)).length

/-! ## Data model (`model.rs`)

The signature value object produced by the parser and fetchers.
`SignatureWithMetadata::new` computes
`hash = format!("{:x}", Keccak256::digest(&text))`.
-/

/-- Signature kinds, `enum SignatureKind` in `model.rs`. -/
inductive SignatureKind where
  | function
  | event
  | error
  | constructor
  | fallback
  | receive
deriving DecidableEq

/-- Struct `SignatureWithMetadata` from `model.rs`. -/
structure SignatureWithMetadata where
  text : String
  hash : String
  kind : SignatureKind
  is_valid : Bool
deriving DecidableEq

/-- Constructor `SignatureWithMetadata::new` from `model.rs`: the hash field is
the lowercase hex Keccak-256 digest of the (UTF-8 bytes of the) text. -/
def SignatureWithMetadata.new (text : String) (kind : SignatureKind) (valid : Bool) :
    SignatureWithMetadata :=
  { text := text, hash := keccak256Hex text, kind := kind, is_valid := valid }

/-- Character class of the lowercase hexadecimal alphabet `0-9a-f`. -/
def isLowerHexChar (c : Char) : Bool :=
  (48 ≤ c.toNat && c.toNat ≤ 57) || (97 ≤ c.toNat && c.toNat ≤ 102)

/-! ## ABI parser (`parser.rs`, `from_abi`)

An ABI entry deserializes into `struct Abi { name, inputs, type }`; entries
with any other `type` than function/event/error, or without a name, are
skipped, the rest emit `name + "(" + comma-join(input types) + ")"`.
-/

/-- Struct `Abi` from `parser.rs` (each `AbiParameter` contributes only its
`type` string). -/
structure Abi where
  name : Option String
  inputs : Option (List String)
  kind : SignatureKind
deriving DecidableEq

/-- Text assembled by `from_abi`:
`format!("{}({})", name, inputs.unwrap_or_default().join(","))`. -/
def abiText (name : String) (inputs : Option (List String)) : String :=
  name ++ "(" ++ String.intercalate "," (inputs.getD []) ++ ")"

/-- Function `from_abi` from `parser.rs` applied to an already-deserialized
entry list. The third argument of `SignatureWithMetadata::new` is modelled
from the spec (§4.5: every ABI-extracted signature is valid), since the
`parser.rs` revision under `src/` still passes a visibility value that the
current `model.rs` data model no longer carries. -/
def from_abi : List Abi → List SignatureWithMetadata
  | [] => []
  | e :: rest =>
    if e.kind ≠ SignatureKind.function ∧ e.kind ≠ SignatureKind.event ∧
        e.kind ≠ SignatureKind.error then
      from_abi rest
    else
      match e.name with
      | none => from_abi rest
      | some n => SignatureWithMetadata.new (abiText n e.inputs) e.kind true :: from_abi rest

/-- Relevance predicate of `from_abi`: the entry's type is function, event or
error and a name is present. -/
def abiRelevant (e : Abi) : Bool :=
  (e.kind == SignatureKind.function || e.kind == SignatureKind.event ||
    e.kind == SignatureKind.error) && e.name.isSome

/-- Signature emitted for one relevant ABI entry. -/
def abiSignature (e : Abi) : SignatureWithMetadata :=
  SignatureWithMetadata.new (abiText (e.name.getD "") e.inputs) e.kind true

/-! ## Solidity parameter-type extraction (`parser.rs`, `get_joined_parameter_types`)

The raw `params` capture is split at commas; each piece is trimmed and the
part before the first space (if any) is the parameter type.
-/

/-- Characters of a trimmed parameter before the first space, when the
parameter does contain a space (Rust `split_once(' ')`, first component). -/
def takeUntilSpace : List Char → Option (List Char)
  | [] => none
  | c :: rest => if c = ' ' then some [] else (takeUntilSpace rest).map (c :: ·)

/-- Whitespace trim on both ends (Rust `str::trim`; the Unicode whitespace
class restricted to the ASCII whitespace appearing in source files). -/
def trimChars (cs : List Char) : List Char :=
  ((cs.dropWhile Char.isWhitespace).reverse.dropWhile Char.isWhitespace).reverse

/-- Splitting at commas (Rust `str::split(',')`): the empty string yields one
empty piece, adjacent commas yield empty pieces. -/
def splitAtComma : List Char → List Char → List (List Char)
  | acc, [] => [acc.reverse]
  | acc, c :: rest =>
    if c = ',' then acc.reverse :: splitAtComma [] rest
    else splitAtComma (c :: acc) rest

/-- Type token extracted from one comma-separated piece of a parameter list:
trim, then `split_once(' ')` keeping the first component, else the whole
trimmed piece (unnamed parameter). -/
def paramTypeOf (p : List Char) : List Char :=
  let t := trimChars p
  match takeUntilSpace t with
  | some pre => pre
  | none => t

/-- Parameter-type tokens of a raw parameter-list capture, in order. -/
def paramTypes (raw : String) : List (List Char) :=
  (splitAtComma [] raw.data).map paramTypeOf

/-- Function `get_joined_parameter_types` from `parser.rs`. The Rust `match`
on the token count (1 ⇒ singleton, _ ⇒ join) is the comma join in both
cases. -/
def get_joined_parameter_types (raw : String) : String :=
  if (trimChars raw.data).isEmpty then ""
  else ⟨List.intercalate [','] (paramTypes raw)⟩

/-! ## Value-type grammar and `is_valid`

Modelled from the spec: the `is_valid` computation is absent from the
`parser.rs` revision under `src/` (only the `is_valid` columns and the
`model.rs` field remain); §4.5 of the spec defines it as: every non-empty
type token must be an elementary value type — `address`, `bool`, `string`,
`bytes` with optional 1–3 digits, `int`/`uint` with optional 1–3 digits,
`fixed`, `ufixed` — followed by zero or more `[N?]` array suffixes.
-/

/-- State machine accepting `(\[\d*\])*`: outside brackets (`false`) expect
`[` or end; inside brackets (`true`) expect digits or `]`. -/
def suffixesAuto : Bool → List Char → Bool
  | false, [] => true
  | false, c :: rest => if c = '[' then suffixesAuto true rest else false
  | true, [] => false
  | true, c :: rest =>
    if c = ']' then suffixesAuto false rest
    else if c.isDigit then suffixesAuto true rest
    else false

/-- Acceptance of zero or more `[N?]` array suffixes. -/
def suffixesOk (cs : List Char) : Bool := suffixesAuto false cs

/-- Tail check for the sized elementary types: up to three leading digits,
then array suffixes. -/
def digitsThenSuffixes (cs : List Char) : Bool :=
  (cs.takeWhile Char.isDigit).length ≤ 3 && suffixesOk (cs.dropWhile Char.isDigit)

/-- Literal-prefix stripping: `some rest` when the token starts with the
keyword. -/
def stripLit : List Char → List Char → Option (List Char)
  | [], cs => some cs
  | _ :: _, [] => none
  | k :: ks, c :: cs => if c = k then stripLit ks cs else none

/-- Elementary type keywords of the §4.5 grammar, each tagged with whether it
takes an optional 1–3 digit size. No keyword is a prefix of another, so at
most one strips any given token. -/
def tokenKeywords : List (List Char × Bool) :=
  [("address".data, false), ("bool".data, false), ("string".data, false),
   ("bytes".data, true), ("uint".data, true), ("int".data, true),
   ("ufixed".data, false), ("fixed".data, false)]

/-- Modelled from the spec: decision procedure for one value-type token of
the §4.5 grammar (the missing `is_valid` check of the parser): some keyword
strips, and the remainder is an optional size (where allowed) followed by
array suffixes. -/
def checkToken (cs : List Char) : Bool :=
  tokenKeywords.any fun kw =>
    match stripLit kw.1 cs with
    | some r => if kw.2 then digitsThenSuffixes r else suffixesOk r
    | none => false

/-- Modelled from the spec: `is_valid` of a raw parameter-list capture — every
non-empty type token matches the value-type grammar. -/
def paramsValid (raw : String) : Bool :=
  (paramTypes raw).all fun t => t.isEmpty || checkToken t

/-- Declarative side, array suffixes: the list is a concatenation of
`[` ++ digits ++ `]` groups. -/
inductive ArraySuffixes : List Char → Prop where
  | nil : ArraySuffixes []
  | cons (ds rest : List Char) : (∀ c ∈ ds, c.isDigit = true) → ArraySuffixes rest →
      ArraySuffixes ('[' :: ds ++ ']' :: rest)

/-- Declarative side, digit runs of length at most three (possibly empty). -/
def DigitsUpTo3 (ds : List Char) : Prop :=
  ds.length ≤ 3 ∧ ∀ c ∈ ds, c.isDigit = true

/-- Declarative side, elementary value types of the §4.5 grammar. -/
def ElementaryOk (cs : List Char) : Prop :=
  cs = "address".data ∨ cs = "bool".data ∨ cs = "string".data ∨
  (∃ ds, DigitsUpTo3 ds ∧ cs = "bytes".data ++ ds) ∨
  (∃ ds, DigitsUpTo3 ds ∧ cs = "uint".data ++ ds) ∨
  (∃ ds, DigitsUpTo3 ds ∧ cs = "int".data ++ ds) ∨
  cs = "ufixed".data ∨ cs = "fixed".data

/-- Declarative side, a full value-type token: an elementary type followed by
zero or more array suffixes. -/
def ValueTypeToken (cs : List Char) : Prop :=
  ∃ e s, cs = e ++ s ∧ ElementaryOk e ∧ ArraySuffixes s

/-! ## Solidity source parser (`parser.rs`, `from_sol`)

The regex machinery is embedded at the capture level: a match of
`REGEX_SIGNATURE` is a `SolCapture` (kind, name, params, optional visibility
keyword), and the `REGEX_PRAGMA` match together with the `lenient_semver`
parse outcomes of its version groups is a `PragmaCapture`. Per the regex,
the `lhs_version` group is always present (its parse may fail) and the
right-hand side, when it participated, carries a condition and a version
string whose parse may fail.
-/

/-- Semantic version as parsed from a pragma (major, minor, patch).
Pre-release tags of `lenient_semver` are not modelled; the pragma strings
reaching this comparison are plain numeric versions. -/
structure Semver where
  major : Nat
  minor : Nat
  patch : Nat
deriving DecidableEq

/-- Strict lexicographic order on versions (the `semver` crate order on
plain numeric versions). -/
def svlt (a b : Semver) : Prop :=
  a.major < b.major ∨ (a.major = b.major ∧
    (a.minor < b.minor ∨ (a.minor = b.minor ∧ a.patch < b.patch)))

/-- Non-strict version order. -/
def svle (a b : Semver) : Prop := svlt a b ∨ a = b

instance (a b : Semver) : Decidable (svlt a b) := by unfold svlt; infer_instance

instance (a b : Semver) : Decidable (svle a b) := by unfold svle; infer_instance

/-- Enum `Condition` from `parser.rs` (npm-style version conditions). -/
inductive Condition where
  | greaterThan
  | greaterThanOrEqual
  | lessThan
  | lessThanOrEqual
  | equals
  | caret
  | tilde
deriving DecidableEq

/-- Function `can_be_less_than_0_5_0` from `parser.rs`, mirroring the chain
of early returns. -/
def can_be_less_than_0_5_0 (version : Semver) (condition : Condition) : Bool :=
  if condition = Condition.greaterThan ∧ svle ⟨0, 4, 26⟩ version then false
  else if condition = Condition.greaterThanOrEqual ∧ svle ⟨0, 5, 0⟩ version then false
  else if condition = Condition.equals ∧ svlt ⟨0, 4, 26⟩ version then false
  else if condition = Condition.caret ∧ svle ⟨0, 5, 0⟩ version then false
  else if condition = Condition.tilde ∧ svle ⟨0, 5, 0⟩ version then false
  else true

/-- Capture groups of `REGEX_PRAGMA` with the version strings replaced by
their `lenient_semver` parse outcome (`none` = parse failure). -/
structure PragmaCapture where
  lhsCondition : Option Condition
  lhsVersion : Option Semver
  rhs : Option (Condition × Option Semver)
deriving DecidableEq

/-- Function `can_assign_public_visibility` from `parser.rs`, over the pragma
match outcome of the file contents (`none` = no `pragma solidity` match,
in which case the file is assumed pre-0.5.0). `Except.error` is the
`Error::ParsePragma` path. -/
def can_assign_public_visibility (p : Option PragmaCapture) : Except Unit Bool :=
  match p with
  | none => Except.ok true
  | some cap =>
    match cap.lhsVersion with
    | none => Except.error ()
    | some lv =>
      let lc := cap.lhsCondition.getD Condition.equals
      match cap.rhs with
      | some (rc, some rv) =>
        Except.ok (can_be_less_than_0_5_0 lv lc && can_be_less_than_0_5_0 rv rc)
      | some (_, none) => Except.error ()
      | none => Except.ok (can_be_less_than_0_5_0 lv lc)

/-- Interface kinds matched by the `kind` group of `REGEX_SIGNATURE`. -/
inductive SolKind where
  | function
  | event
  | error
deriving DecidableEq

/-- Visibility keywords matched by the `visibility` group. -/
inductive SignatureVisibility where
  | publicVis
  | privateVis
  | internalVis
  | externalVis
deriving DecidableEq

/-- Capture groups of one `REGEX_SIGNATURE` match. -/
structure SolCapture where
  kind : SolKind
  name : String
  params : String
  visibility : Option SignatureVisibility
deriving DecidableEq

/-- Mapping of a matched kind into the data model. -/
def SolKind.toSignatureKind : SolKind → SignatureKind
  | .function => SignatureKind.function
  | .event => SignatureKind.event
  | .error => SignatureKind.error

/-- Body of the `from_sol` capture loop for one match: functions without an
explicit visibility keyword are emitted only when
`can_assign_public_visibility` returns `Ok(true)` (silently skipped on
`Ok(false)` and on a pragma parse error); events and errors are always
emitted. The signature is emitted whether or not its parameter types are
valid; the `is_valid` argument is modelled from the spec (§4.5), as for
`from_abi`. -/
def fromSolStep (pragma : Option PragmaCapture) (c : SolCapture) :
    Option SignatureWithMetadata :=
  let text := c.name ++ "(" ++ get_joined_parameter_types c.params ++ ")"
  let sig := SignatureWithMetadata.new text c.kind.toSignatureKind (paramsValid c.params)
  match c.kind with
  | SolKind.function =>
    match c.visibility with
    | some _ => some sig
    | none =>
      match can_assign_public_visibility pragma with
      | Except.ok true => some sig
      | Except.ok false => none
      | Except.error _ => none
  | SolKind.event => some sig
  | SolKind.error => some sig

/-- Function `from_sol` over the list of regex matches of a preprocessed
file. -/
def from_sol (pragma : Option PragmaCapture) (captures : List SolCapture) :
    List SignatureWithMetadata :=
  captures.filterMap (fromSolStep pragma)

/-! ### Claim-side semantics of pragma admissibility

Standard npm/semver range semantics of a single condition, used to state the
claim that a visibility-less function is emitted exactly when the pragma
constraint admits some version below 0.5.0.
-/

/-- Smallest breaking version above a caret bound (`^` ranges). -/
def nextBreaking (b : Semver) : Semver :=
  if b.major > 0 then ⟨b.major + 1, 0, 0⟩
  else if b.minor > 0 then ⟨0, b.minor + 1, 0⟩
  else ⟨0, 0, b.patch + 1⟩

/-- Satisfaction of one version condition under semver range semantics. -/
def satisfies (v : Semver) (cond : Condition) (bound : Semver) : Prop :=
  match cond with
  | Condition.greaterThan => svlt bound v
  | Condition.greaterThanOrEqual => svle bound v
  | Condition.lessThan => svlt v bound
  | Condition.lessThanOrEqual => svle v bound
  | Condition.equals => v = bound
  | Condition.caret => svle bound v ∧ svlt v (nextBreaking bound)
  | Condition.tilde => svle bound v ∧ svlt v ⟨bound.major, bound.minor + 1, 0⟩

instance (v : Semver) (c : Condition) (b : Semver) : Decidable (satisfies v c b) := by
  cases c <;> simp only [satisfies] <;> infer_instance

/-- Claim-side emission condition for a visibility-less function: no pragma
at all, or the pragma versions parse and some version below 0.5.0 satisfies
every present condition. -/
def ClaimAdmitsBelow050 (pragma : Option PragmaCapture) : Prop :=
  match pragma with
  | none => True
  | some cap =>
    ∃ lv, cap.lhsVersion = some lv ∧
      (cap.rhs = none ∨ ∃ rc rv, cap.rhs = some (rc, some rv)) ∧
      ∃ v : Semver, svlt v ⟨0, 5, 0⟩ ∧
        satisfies v (cap.lhsCondition.getD Condition.equals) lv ∧
        (∀ rc rv, cap.rhs = some (rc, some rv) → satisfies v rc rv)

/-- Amended characterization of the parser's below-0.5.0 test, spelled as
plain inequalities: strict lower bounds require the bound below 0.4.26,
`>=`, `^` and `~` require it below 0.5.0, `=` requires it at most 0.4.26,
and upper bounds always pass. -/
def PassesBelowTest (cond : Condition) (v : Semver) : Prop :=
  match cond with
  | Condition.greaterThan => svlt v ⟨0, 4, 26⟩
  | Condition.greaterThanOrEqual => svlt v ⟨0, 5, 0⟩
  | Condition.lessThan => True
  | Condition.lessThanOrEqual => True
  | Condition.equals => svle v ⟨0, 4, 26⟩
  | Condition.caret => svlt v ⟨0, 5, 0⟩
  | Condition.tilde => svlt v ⟨0, 5, 0⟩

/-- Amended emission condition: no pragma, or the left-hand version parses
and passes the test, and the right-hand side (when present) also parses and
passes. -/
def CodeAdmitsPublic (pragma : Option PragmaCapture) : Prop :=
  match pragma with
  | none => True
  | some cap =>
    ∃ lv, cap.lhsVersion = some lv ∧
      PassesBelowTest (cap.lhsCondition.getD Condition.equals) lv ∧
      (cap.rhs = none ∨ ∃ rc rv, cap.rhs = some (rc, some rv) ∧ PassesBelowTest rc rv)

/-! ## Registry fetcher (`etherface/src/fetcher/fourbyte.rs`)

The store is modelled as the signature rows (their hash strings, insertion
order giving the row id) and the registry provenance edges
`(signature_id, kind)`. `SignatureHandler::insert` is insert-or-fetch by
hash; the edge insert is `ON CONFLICT DO NOTHING`.
-/

/-- Store state seen by the registry fetcher. -/
structure FourbyteDb where
  rows : List String
  edges : List (Nat × SignatureKind)
deriving DecidableEq

/-- Function `SignatureHandler::insert`: return the id of the existing row
with this hash, or append a new row. -/
def sigInsert (db : FourbyteDb) (s : SignatureWithMetadata) : FourbyteDb × Nat :=
  match db.rows.findIdx? (· = s.hash) with
  | some i => (db, i)
  | none => ({ db with rows := db.rows ++ [s.hash] }, db.rows.length)

/-- Idempotent provenance-edge insert
(`MappingSignatureFourbyteHandler::insert`). -/
def edgeInsert (db : FourbyteDb) (key : Nat × SignatureKind) : FourbyteDb :=
  if key ∈ db.edges then db else { db with edges := db.edges ++ [key] }

/-- Loop of `insert_signature` from `fourbyte.rs` with the running insert
count: insert each signature's row, then return the count so far upon the
first already-present edge, else insert the edge and continue. -/
def insertSigGo : List SignatureWithMetadata → FourbyteDb → Nat → FourbyteDb × Nat
  | [], db, acc => (db, acc)
  | s :: rest, db, acc =>
    let r := sigInsert db s
    if (r.2, s.kind) ∈ r.1.edges then (r.1, acc)
    else insertSigGo rest (edgeInsert r.1 (r.2, s.kind)) (acc + 1)

/-- Function `insert_signature` from `fourbyte.rs`. -/
def insert_signature (sigs : List SignatureWithMetadata) (db : FourbyteDb) :
    FourbyteDb × Nat :=
  insertSigGo sigs db 0

/-- Paging loop of `FourbyteFetcher::start` for one endpoint: fetch pages in
order, stop (breaking out of the `while let`) as soon as a page contributes
zero newly inserted edges. Returns the final store and the number of pages
fetched. -/
def pagesLoop : List (List SignatureWithMetadata) → FourbyteDb → FourbyteDb × Nat
  | [], db => (db, 0)
  | p :: rest, db =>
    let r := insert_signature p db
    if r.2 = 0 then (r.1, 1)
    else
      let r2 := pagesLoop rest r.1
      (r2.1, r2.2 + 1)

/-! ## Repository crawler (`etherface/src/fetcher/github.rs`)

Repository rows and the two refresh paths the claims are about. The
`solidity_ratio` column (an `f32` only ever stored and copied, never
computed on, in these paths) is modelled as a rational number and named
`share` here. Upstream payloads (`GithubRepository` in `model.rs`) carry an
optional fork parent, giving structural recursion for
`insert_repository_if_not_exists`.
-/

/-- Scalar fields of an upstream repository payload. -/
structure RepoFields where
  id : Nat
  ownerId : Nat
  name : String
  stargazers : Nat
  size : Nat
  created_at : Nat
  pushed_at : Nat
  updated_at : Nat
  fork : Bool
deriving DecidableEq

/-- Upstream repository payload with its optional `source` fork parent
(`Option<Box<GithubRepository>>` in `model.rs`, encoded with two
constructors so the parent is a direct subterm). -/
inductive RepoData where
  | base (fields : RepoFields)
  | fork (fields : RepoFields) (parent : RepoData)
deriving DecidableEq

/-- Scalar fields of a payload. -/
def RepoData.fields : RepoData → RepoFields
  | .base f => f
  | .fork f _ => f

/-- Fork parent of a payload. -/
def RepoData.forkParent : RepoData → Option RepoData
  | .base _ => none
  | .fork _ p => some p

/-- Stored repository row (`GithubRepositoryDatabase`). -/
structure RepoRow where
  id : Nat
  ownerId : Nat
  name : String
  stargazers : Nat
  size : Nat
  created_at : Nat
  pushed_at : Nat
  updated_at : Nat
  fork : Bool
  scraped_at : Option Nat
  visited_at : Option Nat
  share : Option ℚ
  is_deleted : Bool
  found_by_crawling : Bool
deriving DecidableEq

/-- Store state seen by the crawler. -/
structure GithubDb where
  repos : List RepoRow
  users : List Nat
deriving DecidableEq

/-- Row built by `GithubRepository::to_insertable(Some(share), by_crawling)`:
fresh rows start undeleted with NULL `visited_at` and `scraped_at`. -/
def rowOfData (r : RepoData) (share : ℚ) (crawled : Bool) : RepoRow :=
  { id := r.fields.id, ownerId := r.fields.ownerId, name := r.fields.name,
    stargazers := r.fields.stargazers, size := r.fields.size,
    created_at := r.fields.created_at, pushed_at := r.fields.pushed_at,
    updated_at := r.fields.updated_at, fork := r.fields.fork,
    scraped_at := none, visited_at := none, share := some share,
    is_deleted := false, found_by_crawling := crawled }

/-- Lookup `GithubRepositoryHandler::get_by_id`. -/
def getById (db : GithubDb) (i : Nat) : Option RepoRow :=
  db.repos.find? (·.id = i)

/-- Update every row of the given id. -/
def mapRepo (db : GithubDb) (i : Nat) (f : RepoRow → RepoRow) : GithubDb :=
  { db with repos := db.repos.map fun r => if r.id = i then f r else r }

/-- Handler `set_deleted`. -/
def setDeleted (db : GithubDb) (i : Nat) : GithubDb :=
  mapRepo db i fun r => { r with is_deleted := true }

/-- Handler `set_undeleted`. -/
def setUndeleted (db : GithubDb) (i : Nat) : GithubDb :=
  mapRepo db i fun r => { r with is_deleted := false }

/-- Handler `set_ratio`. -/
def setShare (db : GithubDb) (i : Nat) (q : ℚ) : GithubDb :=
  mapRepo db i fun r => { r with share := some q }

/-- Handler `set_scraped_to_null`. -/
def setScrapedToNull (db : GithubDb) (i : Nat) : GithubDb :=
  mapRepo db i fun r => { r with scraped_at := none }

/-- Handler `update`: store the fresher upstream payload and the probed
share (leaving `scraped_at`, `visited_at`, deletion and provenance flags as
they are). -/
def updateRepo (db : GithubDb) (g : RepoData) (q : ℚ) : GithubDb :=
  mapRepo db g.fields.id fun r =>
    { r with name := g.fields.name, stargazers := g.fields.stargazers,
             size := g.fields.size, pushed_at := g.fields.pushed_at,
             updated_at := g.fields.updated_at, share := some q }

/-- Handler `GithubUserHandler::insert_if_not_exists`, reduced to the user id
set. -/
def insertUser (db : GithubDb) (u : Nat) : GithubDb :=
  if u ∈ db.users then db else { db with users := db.users ++ [u] }

/-- Plain row insert (`GithubRepositoryHandler::insert`). -/
def insertRepo (db : GithubDb) (r : RepoData) (share : ℚ) (crawled : Bool) : GithubDb :=
  { db with repos := db.repos ++ [rowOfData r share crawled] }

/-- Outcome of `repos(id).solidity_ratio()` as routed through
`get_solidity_ratio_or_set_repository_deleted`: a share, a
resource-unavailable classification, or another error. -/
inductive ProbeResult where
  | ok (q : ℚ)
  | unavailable
  | err
deriving DecidableEq

/-- Outcome of the conditional `modified_since` request for one repository. -/
inductive FetchResult where
  | notModified
  | modified (g : RepoData)
  | unavailable
  | err
deriving DecidableEq

/-- Cutoff date `2018-01-01` (days since the epoch) of the language-probe
skip in `insert_repository_if_not_exists`. -/
def date_2018_01_01 : Nat := 17532

/-- Function `insert_repository_if_not_exists` from `github.rs`: known rows
are only undeleted; unknown rows are inserted (owner first) with share 0,
pre-2018 repositories skip the probe, a successful probe stores the share
and, when a fork parent is reported, recursively inserts the parent and then
directly inserts every enumerated fork of the parent — passing the share
`ratio` probed for the *current* entity. -/
def insertRepoIfNotExists (probe : Nat → ProbeResult) (forks : Nat → List RepoData) :
    RepoData → GithubDb → Bool → Except Unit GithubDb
  | entity, db, crawled =>
    match getById db entity.fields.id with
    | some repo => Except.ok (if repo.is_deleted then setUndeleted db repo.id else db)
    | none =>
      let db1 := insertUser db entity.fields.ownerId
      let db2 := insertRepo db1 entity 0 crawled
      if entity.fields.created_at ≤ date_2018_01_01 then Except.ok db2
      else
        match probe entity.fields.id with
        | ProbeResult.unavailable => Except.ok (setDeleted db2 entity.fields.id)
        | ProbeResult.err => Except.error ()
        | ProbeResult.ok q =>
          let db3 := setShare db2 entity.fields.id q
          match entity with
          | RepoData.base _ => Except.ok db3
          | RepoData.fork _ parent =>
            match insertRepoIfNotExists probe forks parent db3 true with
            | Except.error e => Except.error e
            | Except.ok db4 =>
              Except.ok ((forks parent.fields.id).foldl
                (fun d f => insertRepo (insertUser d f.fields.ownerId) f q true) db4)

/-- Body of the `CheckRepositories` loop (`find_repository_updates`) for one
stored row: on 304 or an unchanged `pushed_at` the row is untouched; on a
changed `pushed_at` the probe decides between update-plus-scraped-NULL and
marking the row deleted; an unavailable fetch marks the row deleted. -/
def checkRepositoryStep (fetch : Nat → FetchResult) (probe : Nat → ProbeResult)
    (db : GithubDb) (row : RepoRow) : Except Unit GithubDb :=
  match fetch row.id with
  | FetchResult.notModified => Except.ok db
  | FetchResult.modified g =>
    if g.fields.pushed_at ≠ row.pushed_at then
      match probe g.fields.id with
      | ProbeResult.ok q =>
        Except.ok (setScrapedToNull (updateRepo db g q) g.fields.id)
      | ProbeResult.unavailable => Except.ok (setDeleted db g.fields.id)
      | ProbeResult.err => Except.error ()
    else Except.ok db
  | FetchResult.unavailable => Except.ok (setDeleted db row.id)
  | FetchResult.err => Except.error ()

/-! ## Configuration (`config.rs`)

The process environment (after the `.env` merge) is an association list.
`Config::new` reads four variables; the first three go through
`read_and_return_env_var` (missing or empty ⇒ error) while the GitHub token
list is read raw and split at commas, with an emptiness check on the
resulting vector.
-/

/-- Configuration error cases of `config.rs`. -/
inductive ConfigErr where
  | nonexistentVar (v : String)
  | emptyVar (v : String)
deriving DecidableEq

/-- Struct `Config`. -/
structure Config where
  database_url : String
  token_etherscan : String
  tokens_github : List String
  rest_address : String
deriving DecidableEq

/-- Process environment. -/
def EnvMap := List (String × String)

/-- Environment lookup (`std::env::var`). -/
def envVar (e : EnvMap) (k : String) : Option String :=
  (e.find? (·.1 = k)).map (·.2)

/-- Function `read_and_return_env_var`. -/
def read_and_return_env_var (e : EnvMap) (k : String) : Except ConfigErr String :=
  match envVar e k with
  | none => Except.error (ConfigErr.nonexistentVar k)
  | some s => if s.isEmpty then Except.error (ConfigErr.emptyVar k) else Except.ok s

/-- Environment variable names from `config.rs`. -/
def ENV_VAR_DATABASE_URL : String := "ETHERFACE_DATABASE_URL"

/-- Explorer token variable name. -/
def ENV_VAR_TOKEN_ETHERSCAN : String := "ETHERFACE_TOKEN_ETHERSCAN"

/-- GitHub token-list variable name. -/
def ENV_VAR_TOKENS_GITHUB : String := "ETHERFACE_TOKENS_GITHUB"

/-- Query-service address variable name. -/
def ENV_VAR_REST_ADDRESS : String := "ETHERFACE_REST_ADDRESS"

/-- Function `Config::new` (the `.env` file merge is part of the given
environment): note that the GitHub token variable is split at commas
*before* the emptiness check, and `"".split(',')` is `[""]`. -/
def configNew (e : EnvMap) : Except ConfigErr Config :=
  match read_and_return_env_var e ENV_VAR_DATABASE_URL with
  | Except.error err => Except.error err
  | Except.ok database_url =>
    match read_and_return_env_var e ENV_VAR_TOKEN_ETHERSCAN with
    | Except.error err => Except.error err
    | Except.ok token_etherscan =>
      match read_and_return_env_var e ENV_VAR_REST_ADDRESS with
      | Except.error err => Except.error err
      | Except.ok rest_address =>
        match envVar e ENV_VAR_TOKENS_GITHUB with
        | none => Except.error (ConfigErr.nonexistentVar ENV_VAR_TOKENS_GITHUB)
        | some raw =>
          let tokens_github := (splitAtComma [] raw.data).map fun cs => String.mk cs
          if tokens_github.isEmpty then
            Except.error (ConfigErr.emptyVar ENV_VAR_TOKENS_GITHUB)
          else
            Except.ok { database_url := database_url,
                        token_etherscan := token_etherscan,
                        tokens_github := tokens_github,
                        rest_address := rest_address }

/-! ## Concrete scenario data

Closed inputs used by the scenario evaluations, counterexamples and
witnesses below.
-/

/-- Pragma capture of `pragma solidity >0.4.26;`. -/
def pragmaGT0426 : Option PragmaCapture :=
  some { lhsCondition := some Condition.greaterThan,
         lhsVersion := some ⟨0, 4, 26⟩, rhs := none }

/-- Matched function `function f()` with no visibility keyword. -/
def funCaptureNoVis : SolCapture :=
  { kind := SolKind.function, name := "f", params := "", visibility := none }

/-- Token manager with three pool tokens, the first active. -/
def tmABC : TokenManager := { active := "a", pool := ["a", "b", "c"] }

/-- Core quota probe reporting every token drained. -/
def coreZero : String → Nat := fun _ => 0

/-- Search quota probe reporting one remaining search call. -/
def searchOne : String → Nat := fun _ => 1

/-- Registry signature with the given text and row hash (the fetcher treats
the hash as an opaque row key). -/
def regSig (text hash : String) : SignatureWithMetadata :=
  { text := text, hash := hash, kind := SignatureKind.event, is_valid := true }

/-- Scenario S4 pages: pages 1 and 2 entirely new, page 3 entirely known,
page 4 behind the halt. -/
def regPages : List (List SignatureWithMetadata) :=
  [[regSig "a()" "h1", regSig "b()" "h2"],
   [regSig "c()" "h3", regSig "d()" "h4"],
   [regSig "e()" "h5", regSig "f()" "h6"],
   [regSig "g()" "h7"]]

/-- Scenario S4 initial store: rows and registry edges for page 3 only. -/
def regDb0 : FourbyteDb :=
  { rows := ["h5", "h6"],
    edges := [(0, SignatureKind.event), (1, SignatureKind.event)] }

/-- Stored repository row for the freshness scenario: id 1, last seen with
`pushed_at = 10`, already scraped at time 99. -/
def row8 : RepoRow :=
  { id := 1, ownerId := 7, name := "repo", stargazers := 3, size := 12,
    created_at := 18000, pushed_at := 10, updated_at := 10,
    fork := false, scraped_at := some 99, visited_at := some 98,
    share := some 1, is_deleted := false, found_by_crawling := true }

/-- Upstream payload for the freshness scenario: same repository with
`pushed_at = 20`. -/
def g8 : RepoData :=
  RepoData.base
    { id := 1, ownerId := 7, name := "repo", stargazers := 3,
      size := 12, created_at := 18000, pushed_at := 20, updated_at := 20,
      fork := false }

/-- Store holding only `row8`. -/
def db8 : GithubDb := { repos := [row8], users := [7] }

/-- Conditional fetch answering with the fresher payload. -/
def fetch8 : Nat → FetchResult := fun i => if i = 1 then FetchResult.modified g8 else FetchResult.err

/-- Ratio probe classifying the repository as unavailable. -/
def probe8 : Nat → ProbeResult := fun _ => ProbeResult.unavailable

/-- Ratio probe measuring 2 everywhere. -/
def probeOk8 : Nat → ProbeResult := fun _ => ProbeResult.ok 2

/-- Fork-parent scenario: parent repository (id 10). -/
def parent9 : RepoData :=
  RepoData.base
    { id := 10, ownerId := 1, name := "parent", stargazers := 0,
      size := 0, created_at := 18000, pushed_at := 5, updated_at := 5, fork := false }

/-- Fork-parent scenario: scalar fields of the fork being inserted (id 11). -/
def cf9 : RepoFields :=
  { id := 11, ownerId := 2, name := "child", stargazers := 0,
    size := 0, created_at := 18000, pushed_at := 5, updated_at := 5, fork := true }

/-- Fork-parent scenario: the fork being inserted, reporting `parent9`. -/
def child9 : RepoData := RepoData.fork cf9 parent9

/-- Fork-parent scenario: a sibling fork (id 12) enumerated from the
parent. -/
def sibling9 : RepoData :=
  RepoData.base
    { id := 12, ownerId := 3, name := "sibling", stargazers := 0,
      size := 0, created_at := 18000, pushed_at := 5, updated_at := 5, fork := true }

/-- Ratio probe: the fork measures 5, the parent measures 9 (scaled
values; the code never computes on them). -/
def probe9 : Nat → ProbeResult :=
  fun i => if i = 11 then ProbeResult.ok 5 else if i = 10 then ProbeResult.ok 9
    else ProbeResult.err

/-- Fork enumeration of the parent. -/
def forks9 : Nat → List RepoData := fun i => if i = 10 then [sibling9] else []

/-- Environment with the three scalar variables set and the GitHub token
list set to the empty string. -/
def env10 : EnvMap :=
  [(ENV_VAR_DATABASE_URL, "postgres://localhost/etherface"),
   (ENV_VAR_TOKEN_ETHERSCAN, "etherscan-token"),
   (ENV_VAR_REST_ADDRESS, "127.0.0.1:8080"),
   (ENV_VAR_TOKENS_GITHUB, "")]

theorem hexChar_isLowerHex : ∀ n < 16, isLowerHexChar (hexChar n) = true := by decide

theorem byteToHex_all (b : Nat) : (byteToHex b).all isLowerHexChar = true := by
  have h1 := hexChar_isLowerHex (b / 16 % 16) (Nat.mod_lt _ (by norm_num))
  have h2 := hexChar_isLowerHex (b % 16) (Nat.mod_lt _ (by norm_num))
  simp [byteToHex, h1, h2]

theorem bytesToHexString_all (bs : List Nat) :
    (bytesToHexString bs).data.all isLowerHexChar = true := by
  induction bs with
  | nil => rfl
  | cons b t ih =>
    simp only [bytesToHexString, List.map_cons, List.flatten_cons, List.all_append] at ih ⊢
    exact by simp [byteToHex_all b, ih]

theorem bytesToHexString_length (bs : List Nat) :
    (bytesToHexString bs).length = 2 * bs.length := by
  induction bs with
  | nil => rfl
  | cons b t ih =>
    simp only [bytesToHexString, String.length, List.map_cons, List.flatten_cons,
      List.length_append, List.length_cons] at ih ⊢
    simp [byteToHex] at ih ⊢
    omega

theorem keccak256_length (msg : List Nat) : (keccak256 msg).length = 32 := by
  simp [keccak256]

/-- Claim C1: for every signature value constructed by `SignatureWithMetadata::new`,
the stored hash equals the lowercase hexadecimal encoding of the Keccak-256
digest of the UTF-8 bytes of the stored text; the hash is 64 lowercase hex
characters, and the remaining fields are stored unmodified. -/
theorem signature_hash_law (text : String) (kind : SignatureKind) (v : Bool) :
    (SignatureWithMetadata.new text kind v).hash =
      bytesToHexString (keccak256 (utf8Encode text)) ∧
    (SignatureWithMetadata.new text kind v).hash.length = 64 ∧
    (SignatureWithMetadata.new text kind v).hash.data.all isLowerHexChar = true ∧
    (SignatureWithMetadata.new text kind v).text = text ∧
    (SignatureWithMetadata.new text kind v).kind = kind ∧
    (SignatureWithMetadata.new text kind v).is_valid = v := by
  refine ⟨rfl, ?_, ?_, rfl, rfl, rfl⟩
  · show (keccak256Hex text).length = 64
    rw [keccak256Hex, bytesToHexString_length, keccak256_length]
  · exact bytesToHexString_all _

/-! ### Value-type grammar: the checker decides the declarative grammar -/

theorem suffixesAuto_digits (ds rest : List Char) (h : ∀ c ∈ ds, c.isDigit = true) :
    suffixesAuto true (ds ++ ']' :: rest) = suffixesAuto false rest := by
  induction ds with
  | nil => simp [suffixesAuto]
  | cons d t ih =>
    have hd : d.isDigit = true := h d (List.mem_cons_self d t)
    have hne : d ≠ ']' := by
      intro he; rw [he] at hd; exact absurd hd (by decide)
    have step : suffixesAuto true (d :: (t ++ ']' :: rest)) =
        suffixesAuto true (t ++ ']' :: rest) := by
      simp [suffixesAuto, hne, hd]
    rw [List.cons_append, step, ih (fun c hc => h c (List.mem_cons_of_mem d hc))]

theorem arraySuffixes_sound (cs : List Char) (h : ArraySuffixes cs) :
    suffixesOk cs = true := by
  induction h with
  | nil => rfl
  | cons ds rest hds _ ih =>
    show suffixesAuto false ('[' :: (ds ++ ']' :: rest)) = true
    have step : suffixesAuto false ('[' :: (ds ++ ']' :: rest)) =
        suffixesAuto true (ds ++ ']' :: rest) := by
      simp [suffixesAuto]
    rw [step, suffixesAuto_digits ds rest hds]
    exact ih

theorem suffixesAuto_complete (cs : List Char) :
    (suffixesAuto false cs = true → ArraySuffixes cs) ∧
    (suffixesAuto true cs = true →
      ∃ ds rest, cs = ds ++ ']' :: rest ∧ (∀ c ∈ ds, c.isDigit = true) ∧
        ArraySuffixes rest) := by
  induction cs with
  | nil =>
    refine ⟨fun _ => ArraySuffixes.nil, fun h => ?_⟩
    exact absurd h (by decide)
  | cons c rest ih =>
    constructor
    · intro h
      by_cases hc : c = '['
      · subst hc
        have h' : suffixesAuto true rest = true := by simpa [suffixesAuto] using h
        obtain ⟨ds, r2, hrest, hds, har⟩ := ih.2 h'
        rw [hrest]
        exact ArraySuffixes.cons ds r2 hds har
      · exact absurd h (by simp [suffixesAuto, hc])
    · intro h
      by_cases hc : c = ']'
      · subst hc
        have h' : suffixesAuto false rest = true := by simpa [suffixesAuto] using h
        exact ⟨[], rest, rfl, by simp, ih.1 h'⟩
      · by_cases hd : c.isDigit
        · have h' : suffixesAuto true rest = true := by
            simpa [suffixesAuto, hc, hd] using h
          obtain ⟨ds, r2, hrest, hds, har⟩ := ih.2 h'
          refine ⟨c :: ds, r2, by rw [hrest]; rfl, ?_, har⟩
          intro x hx
          rcases List.mem_cons.mp hx with rfl | hx
          · exact hd
          · exact hds x hx
        · exact absurd h (by simp [suffixesAuto, hc, hd])

theorem suffixesOk_iff (cs : List Char) : suffixesOk cs = true ↔ ArraySuffixes cs :=
  ⟨(suffixesAuto_complete cs).1, arraySuffixes_sound cs⟩

theorem arraySuffixes_shape (s : List Char) (h : ArraySuffixes s) :
    s = [] ∨ ∃ r, s = '[' :: r := by
  cases h with
  | nil => exact Or.inl rfl
  | cons ds rest hds har => exact Or.inr ⟨ds ++ ']' :: rest, rfl⟩

theorem digits_take_drop (ds rest : List Char) (hds : ∀ c ∈ ds, c.isDigit = true)
    (hrest : rest = [] ∨ ∃ r', rest = '[' :: r') :
    (ds ++ rest).takeWhile Char.isDigit = ds ∧
    (ds ++ rest).dropWhile Char.isDigit = rest := by
  induction ds with
  | nil =>
    rcases hrest with rfl | ⟨r', rfl⟩
    · simp
    · constructor
      · simp [List.takeWhile]
      · simp [List.dropWhile]
  | cons d t ih =>
    have hd : d.isDigit = true := hds d (List.mem_cons_self d t)
    have iht := ih (fun c hc => hds c (List.mem_cons_of_mem d hc))
    constructor
    · simpa [List.takeWhile_cons, hd] using iht.1
    · simpa [List.dropWhile_cons, hd] using iht.2

theorem digitsThenSuffixes_iff (r : List Char) :
    digitsThenSuffixes r = true ↔
      ∃ ds s, r = ds ++ s ∧ DigitsUpTo3 ds ∧ ArraySuffixes s := by
  constructor
  · intro h
    rw [digitsThenSuffixes, Bool.and_eq_true, decide_eq_true_eq] at h
    refine ⟨r.takeWhile Char.isDigit, r.dropWhile Char.isDigit,
      (List.takeWhile_append_dropWhile Char.isDigit r).symm, ⟨h.1, ?_⟩,
      (suffixesOk_iff _).mp h.2⟩
    intro c hc
    exact List.mem_takeWhile_imp hc
  · rintro ⟨ds, s, rfl, ⟨hlen, hdigits⟩, har⟩
    have htd := digits_take_drop ds s hdigits (arraySuffixes_shape s har)
    rw [digitsThenSuffixes, Bool.and_eq_true, decide_eq_true_eq, htd.1, htd.2]
    exact ⟨hlen, (suffixesOk_iff s).mpr har⟩

theorem stripLit_some (ks cs r : List Char) : stripLit ks cs = some r ↔ cs = ks ++ r := by
  induction ks generalizing cs with
  | nil => simp [stripLit]
  | cons k ks ih =>
    cases cs with
    | nil => simp [stripLit]
    | cons c cs =>
      by_cases hc : c = k
      · subst hc; simp [stripLit, ih]
      · simp [stripLit, hc, Ne.symm hc]

theorem checkToken_iff (cs : List Char) : checkToken cs = true ↔ ValueTypeToken cs := by
  rw [checkToken, List.any_eq_true]
  constructor
  · rintro ⟨kw, hkw, hmatch⟩
    rcases hstrip : stripLit kw.1 cs with _ | r
    · rw [hstrip] at hmatch; simp at hmatch
    rw [hstrip] at hmatch
    have hcs : cs = kw.1 ++ r := stripLit_some _ _ _ |>.mp hstrip
    fin_cases hkw
    · exact ⟨"address".data, r, hcs, Or.inl rfl,
        (suffixesOk_iff r).mp (by simpa using hmatch)⟩
    · exact ⟨"bool".data, r, hcs, Or.inr (Or.inl rfl),
        (suffixesOk_iff r).mp (by simpa using hmatch)⟩
    · exact ⟨"string".data, r, hcs, Or.inr (Or.inr (Or.inl rfl)),
        (suffixesOk_iff r).mp (by simpa using hmatch)⟩
    · obtain ⟨ds, s, rfl, hd3, har⟩ := (digitsThenSuffixes_iff r).mp (by simpa using hmatch)
      exact ⟨"bytes".data ++ ds, s, by simpa using hcs,
        Or.inr (Or.inr (Or.inr (Or.inl ⟨ds, hd3, rfl⟩))), har⟩
    · obtain ⟨ds, s, rfl, hd3, har⟩ := (digitsThenSuffixes_iff r).mp (by simpa using hmatch)
      exact ⟨"uint".data ++ ds, s, by simpa using hcs,
        Or.inr (Or.inr (Or.inr (Or.inr (Or.inl ⟨ds, hd3, rfl⟩)))), har⟩
    · obtain ⟨ds, s, rfl, hd3, har⟩ := (digitsThenSuffixes_iff r).mp (by simpa using hmatch)
      exact ⟨"int".data ++ ds, s, by simpa using hcs,
        Or.inr (Or.inr (Or.inr (Or.inr (Or.inr (Or.inl ⟨ds, hd3, rfl⟩))))), har⟩
    · exact ⟨"ufixed".data, r, hcs,
        Or.inr (Or.inr (Or.inr (Or.inr (Or.inr (Or.inr (Or.inl rfl)))))),
        (suffixesOk_iff r).mp (by simpa using hmatch)⟩
    · exact ⟨"fixed".data, r, hcs,
        Or.inr (Or.inr (Or.inr (Or.inr (Or.inr (Or.inr (Or.inr rfl)))))),
        (suffixesOk_iff r).mp (by simpa using hmatch)⟩
  · rintro ⟨e, s, rfl, helem, har⟩
    have hsuf := (suffixesOk_iff s).mpr har
    rcases helem with rfl | rfl | rfl | ⟨ds, hd3, rfl⟩ | ⟨ds, hd3, rfl⟩ | ⟨ds, hd3, rfl⟩ | rfl | rfl
    · exact ⟨("address".data, false), by simp [tokenKeywords],
        by rw [(stripLit_some _ _ _).mpr rfl]; simpa using hsuf⟩
    · exact ⟨("bool".data, false), by simp [tokenKeywords],
        by rw [(stripLit_some _ _ _).mpr rfl]; simpa using hsuf⟩
    · exact ⟨("string".data, false), by simp [tokenKeywords],
        by rw [(stripLit_some _ _ _).mpr rfl]; simpa using hsuf⟩
    · refine ⟨("bytes".data, true), by simp [tokenKeywords], ?_⟩
      rw [List.append_assoc, (stripLit_some _ _ _).mpr rfl]
      simpa using (digitsThenSuffixes_iff (ds ++ s)).mpr ⟨ds, s, rfl, hd3, har⟩
    · refine ⟨("uint".data, true), by simp [tokenKeywords], ?_⟩
      rw [List.append_assoc, (stripLit_some _ _ _).mpr rfl]
      simpa using (digitsThenSuffixes_iff (ds ++ s)).mpr ⟨ds, s, rfl, hd3, har⟩
    · refine ⟨("int".data, true), by simp [tokenKeywords], ?_⟩
      rw [List.append_assoc, (stripLit_some _ _ _).mpr rfl]
      simpa using (digitsThenSuffixes_iff (ds ++ s)).mpr ⟨ds, s, rfl, hd3, har⟩
    · exact ⟨("ufixed".data, false), by simp [tokenKeywords],
        by rw [(stripLit_some _ _ _).mpr rfl]; simpa using hsuf⟩
    · exact ⟨("fixed".data, false), by simp [tokenKeywords],
        by rw [(stripLit_some _ _ _).mpr rfl]; simpa using hsuf⟩

/-! ### C2 and C3: parser claims -/

/-- Claim C2: a parsed signature is marked valid exactly when every non-empty
parameter-type token matches the built-in value-type grammar; an unmatched
token (scenario S3, `function g(MyStruct s) external;` at the capture level)
still emits the signature, with text `g(MyStruct)` and `is_valid = false`. -/
theorem is_valid_characterization :
    (∀ raw : String, paramsValid raw = true ↔
      ∀ t ∈ paramTypes raw, t ≠ [] → ValueTypeToken t) ∧
    (fromSolStep none
      { kind := SolKind.function, name := "g", params := "MyStruct s",
        visibility := some SignatureVisibility.externalVis }).map
      (fun s => (s.text, s.kind, s.is_valid)) =
      some ("g(MyStruct)", SignatureKind.function, false) := by
  constructor
  · intro raw
    rw [paramsValid, List.all_eq_true]
    constructor
    · intro h t ht hne
      rcases Bool.or_eq_true .. |>.mp (h t ht) with hempty | hcheck
      · exact absurd (List.isEmpty_iff.mp hempty) hne
      · exact (checkToken_iff t).mp hcheck
    · intro h t ht
      rw [Bool.or_eq_true]
      by_cases hne : t = []
      · exact Or.inl (by simp [hne])
      · exact Or.inr ((checkToken_iff t).mpr (h t ht hne))
  · decide

theorem from_abi_filter_map (entries : List Abi) :
    from_abi entries = (entries.filter abiRelevant).map abiSignature := by
  induction entries with
  | nil => rfl
  | cons e rest ih =>
    by_cases hk : e.kind ≠ SignatureKind.function ∧ e.kind ≠ SignatureKind.event ∧
        e.kind ≠ SignatureKind.error
    · have hrel : abiRelevant e = false := by
        simp [abiRelevant, hk.1, hk.2.1, hk.2.2]
      rw [from_abi, if_pos hk, List.filter_cons_of_neg (by simp [hrel]), ih]
    · cases hn : e.name with
      | none =>
        have hrel : abiRelevant e = false := by simp [abiRelevant, hn]
        rw [from_abi, if_neg hk]
        rw [hn, List.filter_cons_of_neg (by simp [hrel]), ih]
      | some n =>
        have hor : e.kind = SignatureKind.function ∨ e.kind = SignatureKind.event ∨
            e.kind = SignatureKind.error := by
          by_contra hcon
          push_neg at hcon
          exact hk ⟨hcon.1, hcon.2.1, hcon.2.2⟩
        have hrel : abiRelevant e = true := by
          rcases hor with h | h | h <;> simp [abiRelevant, h, hn]
        rw [from_abi, if_neg hk]
        rw [hn, List.filter_cons_of_pos (by simp [hrel]), List.map_cons, ih]
        simp [abiSignature, hn]

set_option maxRecDepth 1000000 in
/-- Claim C3: the function `from_abi` emits exactly one signature per relevant entry (type in
function/event/error, name present), in input order, with the text
`name(type,...,type)` and an absent inputs field as an empty list; on the
scenario S1 single-entry ABI it yields `transfer(address,uint256)` of kind
Function with the stated Keccak-256 hash. -/
theorem abi_parser_spec :
    (∀ entries, from_abi entries = (entries.filter abiRelevant).map abiSignature) ∧
    from_abi [{ name := some "transfer", inputs := some ["address", "uint256"],
                kind := SignatureKind.function }] =
      [{ text := "transfer(address,uint256)",
         hash := "a9059cbb2ab09eb219583f4a59a5d0623ade346d962bcd4e46b11da047c9049b",
         kind := SignatureKind.function, is_valid := true }] :=
  ⟨from_abi_filter_map, by decide⟩

/-! ### C4: pragma-gated emission of visibility-less functions -/

theorem not_svle_iff (a b : Semver) : ¬ svle a b ↔ svlt b a := by
  obtain ⟨a1, a2, a3⟩ := a
  obtain ⟨b1, b2, b3⟩ := b
  simp only [svle, svlt, Semver.mk.injEq]
  omega

theorem not_svlt_iff (a b : Semver) : ¬ svlt a b ↔ svle b a := by
  obtain ⟨a1, a2, a3⟩ := a
  obtain ⟨b1, b2, b3⟩ := b
  simp only [svle, svlt, Semver.mk.injEq]
  omega

theorem can_be_less_iff (v : Semver) (c : Condition) :
    can_be_less_than_0_5_0 v c = true ↔ PassesBelowTest c v := by
  obtain ⟨v1, v2, v3⟩ := v
  cases c <;>
    simp only [can_be_less_than_0_5_0, PassesBelowTest, svle, svlt,
      Semver.mk.injEq, reduceCtorEq, false_and, true_and, if_false] <;>
    split_ifs with h <;>
    simp_all <;>
    omega

theorem can_assign_iff (pragma : Option PragmaCapture) :
    can_assign_public_visibility pragma = Except.ok true ↔ CodeAdmitsPublic pragma := by
  cases pragma with
  | none => simp [can_assign_public_visibility, CodeAdmitsPublic]
  | some cap =>
    obtain ⟨lc, lvOpt, rhs⟩ := cap
    cases lvOpt with
    | none => simp [can_assign_public_visibility, CodeAdmitsPublic]
    | some lv =>
      cases rhs with
      | none =>
        simp [can_assign_public_visibility, CodeAdmitsPublic, can_be_less_iff]
      | some rp =>
        obtain ⟨rc, rvOpt⟩ := rp
        cases rvOpt with
        | none => simp [can_assign_public_visibility, CodeAdmitsPublic]
        | some rv =>
          simp only [can_assign_public_visibility, CodeAdmitsPublic,
            Except.ok.injEq, Bool.and_eq_true, can_be_less_iff,
            Option.some.injEq, Prod.mk.injEq, exists_eq_left, reduceCtorEq,
            false_or]
          aesop

/-- Claim C4 counterexample: for the pragma `>0.4.26`, which (under semver range
semantics) admits version 0.4.27 below 0.5.0, a matched visibility-less
function is silently skipped, refuting the claimed characterization at this
input. -/
theorem pragma_admission_counterexample :
    fromSolStep pragmaGT0426 funCaptureNoVis = none ∧
    ClaimAdmitsBelow050 pragmaGT0426 ∧
    ¬ ((fromSolStep pragmaGT0426 funCaptureNoVis).isSome = true ↔
        ClaimAdmitsBelow050 pragmaGT0426) := by
  have hadm : ClaimAdmitsBelow050 pragmaGT0426 := by
    show ClaimAdmitsBelow050 (some _)
    refine ⟨⟨0, 4, 26⟩, rfl, Or.inl rfl, ⟨0, 4, 27⟩, by decide, by decide, ?_⟩
    intro rc rv h
    exact Option.noConfusion h
  refine ⟨by decide, hadm, fun hiff => ?_⟩
  exact absurd (hiff.mpr hadm) (by decide)

/-- Claim C4 amended: a regex match is emitted exactly when it is an event, an
error, a function with an explicit visibility keyword, or a visibility-less
function whose file passes the parser's below-0.5.0 pragma test — no pragma
at all, or a pragma whose left (and right, when present) version parses and
whose conditions pass: `>` requires the bound below 0.4.26, `>=`, `^`, `~`
below 0.5.0, `=` at most 0.4.26, and `<`/`<=` always pass. A pragma whose
version fails to parse silently skips the function. -/
theorem sol_function_emission (pragma : Option PragmaCapture) (c : SolCapture) :
    (fromSolStep pragma c).isSome = true ↔
      (c.kind = SolKind.event ∨ c.kind = SolKind.error ∨
        c.visibility.isSome = true ∨ CodeAdmitsPublic pragma) := by
  obtain ⟨k, name, params, vis⟩ := c
  cases k
  case event => simp [fromSolStep]
  case error => simp [fromSolStep]
  case function =>
    cases vis with
    | some v => simp [fromSolStep]
    | none =>
      have hlhs : (fromSolStep pragma
          ⟨SolKind.function, name, params, none⟩).isSome = true ↔
          can_assign_public_visibility pragma = Except.ok true := by
        cases h : can_assign_public_visibility pragma with
        | error e => simp [fromSolStep, h]
        | ok b => cases b <;> simp [fromSolStep, h]
      rw [hlhs, can_assign_iff]
      simp

/-! ### C5: credential refresh monotonicity -/

theorem refresh_best (l : List (String × Nat)) (b : String × Nat) :
    (l.foldl (fun acc t => if t.2 > acc.2 then t else acc) b = b ∨
     l.foldl (fun acc t => if t.2 > acc.2 then t else acc) b ∈ l) ∧
    b.2 ≤ (l.foldl (fun acc t => if t.2 > acc.2 then t else acc) b).2 ∧
    (∀ x ∈ l, x.2 ≤ (l.foldl (fun acc t => if t.2 > acc.2 then t else acc) b).2) := by
  induction l generalizing b with
  | nil => exact ⟨Or.inl rfl, Nat.le_refl _, by simp⟩
  | cons t rest ih =>
    rw [List.foldl_cons]
    by_cases h : t.2 > b.2
    · simp only [if_pos h]
      obtain ⟨hmem, hle, hall⟩ := ih t
      refine ⟨Or.inr ?_, Nat.le_trans (Nat.le_of_lt h) hle, ?_⟩
      · rcases hmem with heq | hm
        · rw [heq]; exact List.mem_cons_self t rest
        · exact List.mem_cons_of_mem _ hm
      · intro x hx
        rcases List.mem_cons.mp hx with rfl | hx
        · exact hle
        · exact hall x hx
    · simp only [if_neg h]
      obtain ⟨hmem, hle, hall⟩ := ih b
      refine ⟨?_, hle, ?_⟩
      · rcases hmem with heq | hm
        · exact Or.inl heq
        · exact Or.inr (List.mem_cons_of_mem _ hm)
      · intro x hx
        rcases List.mem_cons.mp hx with rfl | hx
        · exact Nat.le_trans (Nat.le_of_not_lt h) hle
        · exact hall x hx

theorem filterMap_probe (core search : String → Nat) (l : List String) :
    (l.filterMap fun t =>
      ((fun t => some (⟨core t, search t⟩ : Ratelimit)) t).map fun rl => (t, rl.core)) =
    l.map fun t => (t, core t) := by
  induction l with
  | nil => rfl
  | cons a l ih => exact congrArg (List.cons (a, core a)) ih

/-- Claim C5: with every pool credential's remaining quota known, `refresh` keeps
the active credential when its search quota is exhausted (sleeping one
minute); otherwise it probes every pool credential's core quota and either
sleeps five minutes, keeping the active credential, when the pool maximum is
zero, or switches to a credential achieving the pool maximum — never to one
with fewer remaining calls than the pool maximum. -/
theorem token_refresh_policy (core search : String → Nat) (tm : TokenManager)
    (hne : tm.pool ≠ []) :
    (search tm.active = 0 →
      TokenManager.refresh (fun t => some ⟨core t, search t⟩) tm =
        Except.ok (tm, RefreshEffect.searchReset)) ∧
    (search tm.active ≠ 0 → (∀ t ∈ tm.pool, core t = 0) →
      TokenManager.refresh (fun t => some ⟨core t, search t⟩) tm =
        Except.ok (tm, RefreshEffect.allDrained)) ∧
    (search tm.active ≠ 0 → ∀ t0 ∈ tm.pool, core t0 ≠ 0 →
      ∃ b, b ∈ tm.pool ∧ (∀ t ∈ tm.pool, core t ≤ core b) ∧
        TokenManager.refresh (fun t => some ⟨core t, search t⟩) tm =
          Except.ok ({ tm with active := b }, RefreshEffect.switched)) := by
  have hunfold : TokenManager.refresh (fun t => some ⟨core t, search t⟩) tm =
      if search tm.active = 0 then Except.ok (tm, RefreshEffect.searchReset)
      else refreshScan (fun t => some ⟨core t, search t⟩) tm := rfl
  obtain ⟨active, pool⟩ := tm
  cases pool with
  | nil => exact absurd rfl hne
  | cons p ps =>
    have hscan : refreshScan (fun t => some ⟨core t, search t⟩) ⟨active, p :: ps⟩ =
        (let best := ((p, core p) :: ps.map fun t => (t, core t)).foldl
            (fun acc t => if t.2 > acc.2 then t else acc) (p, core p)
         if best.2 = 0 then Except.ok (⟨active, p :: ps⟩, RefreshEffect.allDrained)
         else Except.ok ({ active := best.1, pool := p :: ps }, RefreshEffect.switched)) := by
      rw [refreshScan]
      rw [show ((p :: ps).filterMap fun t =>
          ((fun t => some (⟨core t, search t⟩ : Ratelimit)) t).map fun rl => (t, rl.core)) =
          ((p :: ps).map fun t => (t, core t)) from filterMap_probe core search (p :: ps)]
      rfl
    obtain ⟨hbmem, hble, hball⟩ := refresh_best ((p, core p) :: ps.map fun t => (t, core t)) (p, core p)
    set valid := (p, core p) :: ps.map (fun t => (t, core t)) with hvalid
    set best := valid.foldl (fun acc t => if t.2 > acc.2 then t else acc) (p, core p) with hbest
    have hmemlist : best ∈ valid := by
      rcases hbmem with heq | hm
      · rw [heq, hvalid]; exact List.mem_cons_self _ _
      · exact hm
    have hform : ∃ t ∈ p :: ps, best = (t, core t) := by
      rw [hvalid] at hmemlist
      rcases List.mem_cons.mp hmemlist with heq | hm
      · exact ⟨p, List.mem_cons_self p ps, heq⟩
      · obtain ⟨t, ht, heq⟩ := List.mem_map.mp hm
        exact ⟨t, List.mem_cons_of_mem p ht, heq.symm⟩
    have hmax : ∀ t ∈ p :: ps, core t ≤ best.2 := by
      intro t ht
      rcases List.mem_cons.mp ht with rfl | ht
      · exact hball (t, core t) (by rw [hvalid]; exact List.mem_cons_self _ _)
      · exact hball (t, core t)
          (by rw [hvalid]; exact List.mem_cons_of_mem _ (List.mem_map_of_mem _ ht))
    refine ⟨fun h0 => by rw [hunfold, if_pos h0], ?_, ?_⟩
    · intro hs hall
      rw [hunfold, if_neg hs, hscan]
      obtain ⟨t, ht, heq⟩ := hform
      have : best.2 = 0 := by rw [heq]; exact hall t ht
      simp [this]
    · intro hs t0 ht0 hc0
      rw [hunfold, if_neg hs, hscan]
      obtain ⟨t, ht, heq⟩ := hform
      have hpos : best.2 ≠ 0 := fun habs =>
        hc0 (Nat.le_zero.mp (habs ▸ hmax t0 ht0))
      refine ⟨t, ht, ?_, ?_⟩
      · intro u hu
        have := hmax u hu
        rw [heq] at this
        exact this
      · have hct : ¬ core t = 0 := fun habs => hpos (by rw [heq]; exact habs)
        simp [heq, hct]

/-- Witness for C5: a concrete three-token pool, all drained, keeps the
active token and reports the drained sleep. -/
theorem token_refresh_policy_witness :
    TokenManager.refresh (fun t => some ⟨coreZero t, searchOne t⟩) tmABC =
      Except.ok (tmABC, RefreshEffect.allDrained) :=
  (token_refresh_policy coreZero searchOne tmABC (by decide)).2.1 (by decide)
    (by decide)

/-! ### C6: request executor retry policy -/

theorem bumpResult_sendCount (x : ExecResult) (n : Nat) :
    (bumpResult x).sendCount (n + 1) = x.sendCount n + 1 := by
  cases x <;> rfl

theorem transport_bound_aux (script : List SendOutcome) :
    ∀ r rv : Nat, r < 5 →
      ((script.take ((execGo script r rv).result.sendCount script.length)).filter
        (· = SendOutcome.transportErr)).length + r ≤ 5 := by
  induction script with
  | nil =>
    intro r rv hr
    simpa using Nat.le_of_lt hr
  | cons o rest ih =>
    intro r rv hr
    cases o
    case okBody =>
      have hres : (execGo (SendOutcome.okBody :: rest) r rv).result =
          ExecResult.success 1 := rfl
      rw [hres]
      simp only [ExecResult.sendCount, List.take_succ_cons, List.take_zero,
        List.filter_cons]
      simp
      omega
    case fatal =>
      have hres : (execGo (SendOutcome.fatal :: rest) r rv).result =
          ExecResult.fatalErr 1 := rfl
      rw [hres]
      simp only [ExecResult.sendCount, List.take_succ_cons, List.take_zero,
        List.filter_cons]
      simp
      omega
    case transportErr =>
      by_cases h5 : r + 1 = 5
      · have hres : (execGo (SendOutcome.transportErr :: rest) r rv).result =
            ExecResult.httpErr 1 := by
          show (if r + 1 = 5 then _ else _ : ExecTrace).result = _
          rw [if_pos h5]
        rw [hres]
        simp only [ExecResult.sendCount, List.take_succ_cons, List.take_zero,
          List.filter_cons]
        simp
        omega
      · have hres : (execGo (SendOutcome.transportErr :: rest) r rv).result =
            bumpResult ((execGo rest (r + 1) rv).result) := by
          show (if r + 1 = 5 then _ else _ : ExecTrace).result = _
          rw [if_neg h5]
          rfl
        rw [hres, List.length_cons, bumpResult_sendCount, List.take_succ_cons,
          List.filter_cons]
        have := ih (r + 1) rv (by omega)
        simp only [decide_eq_true_eq, if_pos rfl]
        simp at this ⊢
        omega
    case retryResp =>
      have hres : (execGo (SendOutcome.retryResp :: rest) r rv).result =
          bumpResult ((execGo rest r (if rv < 10 then rv + 1 else rv)).result) := rfl
      rw [hres, List.length_cons, bumpResult_sendCount, List.take_succ_cons,
        List.filter_cons]
      have := ih r (if rv < 10 then rv + 1 else rv) hr
      simp at this ⊢
      omega
    case cleanupAction =>
      have hres : (execGo (SendOutcome.cleanupAction :: rest) r rv).result =
          bumpResult ((execGo rest r rv).result) := rfl
      rw [hres, List.length_cons, bumpResult_sendCount, List.take_succ_cons,
        List.filter_cons]
      have := ih r rv hr
      simp at this ⊢
      omega
    case refreshAction =>
      have hres : (execGo (SendOutcome.refreshAction :: rest) r rv).result =
          bumpResult ((execGo rest r rv).result) := rfl
      rw [hres, List.length_cons, bumpResult_sendCount, List.take_succ_cons,
        List.filter_cons]
      have := ih r rv hr
      simp at this ⊢
      omega
    case retryAfter s =>
      have hres : (execGo (SendOutcome.retryAfter s :: rest) r rv).result =
          bumpResult ((execGo rest r rv).result) := rfl
      rw [hres, List.length_cons, bumpResult_sendCount, List.take_succ_cons,
        List.filter_cons]
      have := ih r rv hr
      simp at this ⊢
      omega

theorem retry_backoff_aux (n : Nat) :
    ∀ rv r : Nat, 1 ≤ rv → rv ≤ 10 →
      execGo (List.replicate n SendOutcome.retryResp ++ [SendOutcome.okBody]) r rv =
        ⟨ExecResult.success (n + 1),
         (List.range n).map (fun k => 5 * min (rv + 1 + k) 10), []⟩ := by
  induction n with
  | zero => intro rv r _ _; rfl
  | succ n ih =>
    intro rv r h1 h10
    have hrv2 : (if rv < 10 then rv + 1 else rv) = min (rv + 1) 10 := by
      by_cases h : rv < 10
      · rw [if_pos h]; omega
      · rw [if_neg h]; omega
    rw [List.replicate_succ, List.cons_append]
    have hstep : execGo (SendOutcome.retryResp ::
        (List.replicate n SendOutcome.retryResp ++ [SendOutcome.okBody])) r rv =
        withSleep (5 * (if rv < 10 then rv + 1 else rv))
          (bumpTrace (execGo (List.replicate n SendOutcome.retryResp ++
            [SendOutcome.okBody]) r (if rv < 10 then rv + 1 else rv))) := rfl
    rw [hstep, hrv2, ih (min (rv + 1) 10) r (by omega) (by omega)]
    simp only [withSleep, bumpTrace, bumpResult, ExecTrace.mk.injEq]
    refine ⟨trivial, ?_, trivial⟩
    rw [List.range_succ_eq_map, List.map_cons, List.map_map]
    have hhead : 5 * min (rv + 1) 10 = 5 * min (rv + 1 + 0) 10 := by omega
    rw [hhead]
    refine congrArg₂ List.cons rfl ?_
    apply List.map_congr_left
    intro a _
    simp only [Function.comp_apply]
    omega

theorem actions_immediate (acts : List SendOutcome) :
    ∀ (r rv : Nat) (rest : List SendOutcome),
      (∀ o ∈ acts, o = SendOutcome.cleanupAction ∨ o = SendOutcome.refreshAction) →
      execGo (acts ++ rest) r rv =
        ⟨addSends acts.length ((execGo rest r rv).result),
         (execGo rest r rv).sleeps,
         acts.map actKind ++ (execGo rest r rv).actions⟩ := by
  induction acts with
  | nil => intro r rv rest _; rfl
  | cons a acts ih =>
    intro r rv rest hall
    have htail := ih r rv rest (fun o ho => hall o (List.mem_cons_of_mem _ ho))
    rcases hall a (List.mem_cons_self a acts) with rfl | rfl
    · show withAction ActionKind.cleanup (bumpTrace (execGo (acts ++ rest) r rv)) = _
      rw [htail]
      rfl
    · show withAction ActionKind.refreshPool (bumpTrace (execGo (acts ++ rest) r rv)) = _
      rw [htail]
      rfl

/-- Claim C6: five consecutive transport failures return the HTTP error after
exactly five sends (nothing further is sent) and transport failures among
the performed sends never exceed five; any number of `Retry` classifications
is retried through to success, sleeping `5 × counter` seconds with the
counter capped at ten; action classifications perform their action and retry
immediately — no sleep and no counter increment. -/
theorem request_executor_policy :
    (∀ rest, execute (List.replicate 5 SendOutcome.transportErr ++ rest) =
      ⟨ExecResult.httpErr 5, [5, 5, 5, 5], []⟩) ∧
    (∀ script, transportSends script (execute script) ≤ 5) ∧
    (∀ n, execute (List.replicate n SendOutcome.retryResp ++ [SendOutcome.okBody]) =
      ⟨ExecResult.success (n + 1),
       (List.range n).map (fun k => 5 * min (k + 2) 10), []⟩) ∧
    (∀ acts r rv rest,
      (∀ o ∈ acts, o = SendOutcome.cleanupAction ∨ o = SendOutcome.refreshAction) →
      execGo (acts ++ rest) r rv =
        ⟨addSends acts.length ((execGo rest r rv).result),
         (execGo rest r rv).sleeps,
         acts.map actKind ++ (execGo rest r rv).actions⟩) := by
  refine ⟨fun rest => rfl, ?_, ?_, fun acts r rv rest h => actions_immediate acts r rv rest h⟩
  · intro script
    have := transport_bound_aux script 0 1 (by omega)
    simpa [transportSends, execute] using this
  · intro n
    rw [execute, retry_backoff_aux n 1 0 (by omega) (by omega)]
    refine congrArg (fun L => ExecTrace.mk (ExecResult.success (n + 1)) L []) ?_
    apply List.map_congr_left
    intro a _
    omega

/-- Witness for C6: one credential-cleanup action followed by success — two
sends, no sleep, one recorded action. -/
theorem request_executor_policy_witness :
    execGo ([SendOutcome.cleanupAction] ++ [SendOutcome.okBody]) 0 1 =
      ⟨ExecResult.success 2, [], [ActionKind.cleanup]⟩ :=
  (request_executor_policy.2.2.2 [SendOutcome.cleanupAction] 0 1 [SendOutcome.okBody]
    (by decide)).trans (by decide)

/-! ### C7: registry fetcher synchronization halt -/

/-- Claim C7: a page is processed in order — each signature's row is inserted, and
the page is abandoned (count so far returned) at the first provenance edge
already present; the paging loop fetches a further page exactly when the
current page contributed at least one new edge; on the S4 store (page 3
known, pages 1–2 new) three pages are fetched, pages 1 and 2 are fully
inserted, page 3 halts at its first signature, and page 4's signature never
reaches the store. -/
theorem registry_sync_halt :
    (∀ db s rest, ((sigInsert db s).2, s.kind) ∈ (sigInsert db s).1.edges →
      insert_signature (s :: rest) db = ((sigInsert db s).1, 0)) ∧
    (∀ p rest db, (insert_signature p db).2 = 0 →
      pagesLoop (p :: rest) db = ((insert_signature p db).1, 1)) ∧
    (∀ p rest db, (insert_signature p db).2 ≠ 0 →
      pagesLoop (p :: rest) db =
        ((pagesLoop rest (insert_signature p db).1).1,
         (pagesLoop rest (insert_signature p db).1).2 + 1)) ∧
    (pagesLoop regPages regDb0 =
      ({ rows := ["h5", "h6", "h1", "h2", "h3", "h4"],
         edges := [(0, SignatureKind.event), (1, SignatureKind.event),
                   (2, SignatureKind.event), (3, SignatureKind.event),
                   (4, SignatureKind.event), (5, SignatureKind.event)] }, 3) ∧
      "h7" ∉ (pagesLoop regPages regDb0).1.rows) := by
  refine ⟨?_, ?_, ?_, by decide⟩
  · intro db s rest h
    simp [insert_signature, insertSigGo, h]
  · intro p rest db h
    simp [pagesLoop, h]
  · intro p rest db h
    simp [pagesLoop, h]

/-- Witness for C7: page 3 of the S4 scenario halts at its first signature,
whose edge is already present, contributing zero inserts and leaving the
store unchanged. -/
theorem registry_sync_halt_witness :
    insert_signature [regSig "e()" "h5", regSig "f()" "h6"] regDb0 = (regDb0, 0) :=
  (registry_sync_halt.1 regDb0 (regSig "e()" "h5") [regSig "f()" "h6"]
    (by decide)).trans (by decide)

/-! ### C8: freshness semantics of the CheckRepositories refresh -/

theorem setScrapedToNull_spec (db : GithubDb) (i : Nat) :
    ∀ r ∈ (setScrapedToNull db i).repos, r.id = i → r.scraped_at = none := by
  intro r hr hid
  obtain ⟨r0, hr0, heq⟩ := List.mem_map.mp hr
  by_cases h : r0.id = i
  · rw [if_pos h] at heq
    rw [← heq]
  · rw [if_neg h] at heq
    rw [← heq] at hid
    exact absurd hid h

theorem setDeleted_scraped (db : GithubDb) (i : Nat) :
    ((setDeleted db i).repos.map fun r => r.scraped_at) =
      db.repos.map fun r => r.scraped_at := by
  simp only [setDeleted, mapRepo, List.map_map]
  apply List.map_congr_left
  intro r _
  by_cases h : r.id = i <;> simp [h, Function.comp]

/-- Claim C8 counterexample: the upstream `pushed_at` (20) differs from the stored
one (10), yet when the language-ratio probe classifies the repository as
unavailable the row keeps `scraped_at = some 99` and is marked deleted
instead — `scraped_at` does not become NULL. -/
theorem repository_freshness_counterexample :
    g8.fields.pushed_at ≠ row8.pushed_at ∧
    (checkRepositoryStep fetch8 probe8 db8 row8).map
      (fun db => db.repos.map fun r => (r.scraped_at, r.is_deleted)) =
      Except.ok [(some 99, true)] :=
  ⟨by decide, by decide⟩

/-- Claim C8 amended: on the CheckRepositories path, a 304 or an unchanged
`pushed_at` leaves the row untouched; a changed `pushed_at` clears
`scraped_at` to NULL as part of storing the fresher payload *provided the
language-ratio probe succeeds*; when the probe reports the repository
unavailable the row is instead marked deleted, keeping `scraped_at`. -/
theorem repository_freshness (fetch : Nat → FetchResult) (probe : Nat → ProbeResult)
    (db : GithubDb) (row : RepoRow) :
    (fetch row.id = FetchResult.notModified →
      checkRepositoryStep fetch probe db row = Except.ok db) ∧
    (∀ g, fetch row.id = FetchResult.modified g →
      g.fields.pushed_at = row.pushed_at →
      checkRepositoryStep fetch probe db row = Except.ok db) ∧
    (∀ g q, fetch row.id = FetchResult.modified g →
      g.fields.pushed_at ≠ row.pushed_at → probe g.fields.id = ProbeResult.ok q →
      checkRepositoryStep fetch probe db row =
        Except.ok (setScrapedToNull (updateRepo db g q) g.fields.id) ∧
      ∀ r ∈ (setScrapedToNull (updateRepo db g q) g.fields.id).repos,
        r.id = g.fields.id → r.scraped_at = none) ∧
    (∀ g, fetch row.id = FetchResult.modified g →
      g.fields.pushed_at ≠ row.pushed_at →
      probe g.fields.id = ProbeResult.unavailable →
      checkRepositoryStep fetch probe db row = Except.ok (setDeleted db g.fields.id) ∧
      ((setDeleted db g.fields.id).repos.map fun r => r.scraped_at) =
        db.repos.map fun r => r.scraped_at) := by
  refine ⟨?_, ?_, ?_, ?_⟩
  · intro h
    simp [checkRepositoryStep, h]
  · intro g hf hp
    simp [checkRepositoryStep, hf, hp]
  · intro g q hf hp hprobe
    exact ⟨by simp [checkRepositoryStep, hf, hp, hprobe], setScrapedToNull_spec _ _⟩
  · intro g hf hp hprobe
    exact ⟨by simp [checkRepositoryStep, hf, hp, hprobe], setDeleted_scraped _ _⟩

/-- Witness for C8: the same modified repository with a succeeding probe gets
the fresher payload stored and `scraped_at` cleared to NULL. -/
theorem repository_freshness_witness :
    checkRepositoryStep fetch8 probeOk8 db8 row8 =
      Except.ok
        { repos := [{ id := 1, ownerId := 7, name := "repo", stargazers := 3,
                      size := 12, created_at := 18000, pushed_at := 20,
                      updated_at := 20, fork := false, scraped_at := none,
                      visited_at := some 98, share := some 2,
                      is_deleted := false, found_by_crawling := true }],
          users := [7] } :=
  ((repository_freshness fetch8 probeOk8 db8 row8).2.2.1 g8 2 (by decide) (by decide)
    (by decide)).1.trans (by decide)

/-! ### C9: fork handling on first insertion -/

theorem insertUser_repos (d : GithubDb) (u : Nat) : (insertUser d u).repos = d.repos := by
  unfold insertUser
  split <;> rfl

theorem forksFold_repos (fs : List RepoData) (q : ℚ) :
    ∀ d : GithubDb,
      ((fs.foldl (fun d g => insertRepo (insertUser d g.fields.ownerId) g q true) d).repos) =
        d.repos ++ fs.map (fun g => rowOfData g q true) := by
  induction fs with
  | nil => intro d; simp
  | cons g fs ih =>
    intro d
    rw [List.foldl_cons, ih]
    simp [insertRepo, insertUser_repos d]

/-- Claim C9 counterexample: inserting fork 11 (probe 5) whose parent 10 probes 9
stores the enumerated sibling fork 12 with ratio 5 — the triggering fork's
ratio, not the parent's stored ratio 9. -/
theorem fork_insertion_counterexample :
    (insertRepoIfNotExists probe9 forks9 child9 ⟨[], []⟩ true).map
      (fun db => db.repos.map fun r => (r.id, r.share)) =
      Except.ok [(11, some (5 : ℚ)), (10, some (9 : ℚ)), (12, some (5 : ℚ))] ∧
    (5 : ℚ) ≠ 9 :=
  ⟨by decide, by decide⟩

/-- Claim C9 amended: when the crawler first inserts a fork with a reported parent
and a succeeding language-ratio probe, it recursively inserts the parent and
then directly inserts every enumerated fork of the parent with a stored
ratio equal to the *triggering fork's* probed ratio (which the code assumes
to equal the parent's). -/
theorem fork_insertion (probe : Nat → ProbeResult) (forks : Nat → List RepoData)
    (db : GithubDb) (f : RepoFields) (parent : RepoData) (crawled : Bool) (q : ℚ)
    (hnew : getById db f.id = none)
    (hdate : ¬ f.created_at ≤ date_2018_01_01)
    (hprobe : probe f.id = ProbeResult.ok q) :
    ∀ db4, insertRepoIfNotExists probe forks parent
        (setShare (insertRepo (insertUser db f.ownerId) (RepoData.fork f parent) 0 crawled)
          f.id q) true = Except.ok db4 →
      insertRepoIfNotExists probe forks (RepoData.fork f parent) db crawled =
        Except.ok ((forks parent.fields.id).foldl
          (fun d g => insertRepo (insertUser d g.fields.ownerId) g q true) db4) ∧
      ((forks parent.fields.id).foldl
          (fun d g => insertRepo (insertUser d g.fields.ownerId) g q true) db4).repos =
        db4.repos ++ (forks parent.fields.id).map (fun g => rowOfData g q true) ∧
      ∀ r ∈ (forks parent.fields.id).map (fun g => rowOfData g q true),
        r.share = some q := by
  intro db4 hrec
  refine ⟨?_, forksFold_repos _ q db4, ?_⟩
  · rw [insertRepoIfNotExists]
    simp only [RepoData.fields, hnew, if_neg hdate, hprobe, hrec]
  · intro r hr
    obtain ⟨g, _, rfl⟩ := List.mem_map.mp hr
    rfl

/-- Witness for C9: the concrete fork scenario — after the parent insert
(stored ratio 9) the fold appends the sibling fork with the triggering
fork's ratio 5. -/
theorem fork_insertion_witness :
    insertRepoIfNotExists probe9 forks9 (RepoData.fork cf9 parent9) ⟨[], []⟩ true =
      Except.ok
        { repos := [{ id := 11, ownerId := 2, name := "child", stargazers := 0, size := 0,
                      created_at := 18000, pushed_at := 5, updated_at := 5, fork := true,
                      scraped_at := none, visited_at := none, share := some 5,
                      is_deleted := false, found_by_crawling := true },
                    { id := 10, ownerId := 1, name := "parent", stargazers := 0, size := 0,
                      created_at := 18000, pushed_at := 5, updated_at := 5, fork := false,
                      scraped_at := none, visited_at := none, share := some 9,
                      is_deleted := false, found_by_crawling := true },
                    { id := 12, ownerId := 3, name := "sibling", stargazers := 0, size := 0,
                      created_at := 18000, pushed_at := 5, updated_at := 5, fork := true,
                      scraped_at := none, visited_at := none, share := some 5,
                      is_deleted := false, found_by_crawling := true }],
          users := [2, 1, 3] } :=
  (fork_insertion probe9 forks9 ⟨[], []⟩ cf9 parent9 true 5 (by decide)
    (by decide) (by decide)
    { repos := [{ id := 11, ownerId := 2, name := "child", stargazers := 0, size := 0,
                  created_at := 18000, pushed_at := 5, updated_at := 5, fork := true,
                  scraped_at := none, visited_at := none, share := some 5,
                  is_deleted := false, found_by_crawling := true },
                { id := 10, ownerId := 1, name := "parent", stargazers := 0, size := 0,
                  created_at := 18000, pushed_at := 5, updated_at := 5, fork := false,
                  scraped_at := none, visited_at := none, share := some 9,
                  is_deleted := false, found_by_crawling := true }],
      users := [2, 1] } (by decide)).1.trans (by decide)

/-! ### C10: configuration loading -/

/-- Claim C10, evaluated at the failing input: with the GitHub token-list
variable set to the empty string (and the other three variables set),
`Config::new` succeeds with the token list `[""]` — because `"".split(',')`
is `[""]`, the emptiness check never fires — while the claim (and the spec's
"all must be non-empty") requires an error. The three scalar variables do
error when missing or empty. -/
theorem config_empty_tokens_eval :
    envVar env10 ENV_VAR_TOKENS_GITHUB = some "" ∧
    configNew env10 =
      Except.ok { database_url := "postgres://localhost/etherface",
                  token_etherscan := "etherscan-token",
                  tokens_github := [""],
                  rest_address := "127.0.0.1:8080" } ∧
    configNew [] = Except.error (ConfigErr.nonexistentVar ENV_VAR_DATABASE_URL) ∧
    configNew [(ENV_VAR_DATABASE_URL, "")] =
      Except.error (ConfigErr.emptyVar ENV_VAR_DATABASE_URL) :=
  ⟨by decide, by decide, by decide, by decide⟩

end Etherface
